import Mathlib

/-!
Verification of the handoff-analytics engine (src/analytics.py).

The Python code is shallowly embedded: a handoff file is a record of its
name, full text content and modification time (seconds, as an integer);
Python strings are Lean strings manipulated through their character lists;
Python dicts (which preserve insertion order and update values in place)
are association lists with an insert-or-update-in-place operation.
-/

/-- Characters stripped by Python's str.strip() with no argument
(Unicode whitespace). -/
def pySpaceChars : List Char :=
  [' ', '\t', '\n', '\r', '\x0b', '\x0c',
   '\x1c', '\x1d', '\x1e', '\x1f', '\x85', '\xa0',
   ' ', ' ', ' ', ' ', ' ', ' ', ' ',
   ' ', ' ', ' ', ' ', ' ', ' ', ' ',
   ' ', ' ', '　']

def pyIsSpace (c : Char) : Bool := c ∈ pySpaceChars

/-- Python str.strip(): drop leading and trailing whitespace. -/
def pyStrip (s : String) : String :=
  String.mk (((s.toList.dropWhile pyIsSpace).reverse.dropWhile pyIsSpace).reverse)

/-- Split a character list at every occurrence of the separator
(Python str.split(sep): no collapsing, the empty input yields one
empty field). -/
def chSplit (sep : Char) : List Char → List (List Char)
  | [] => [[]]
  | c :: cs =>
    if c = sep then [] :: chSplit sep cs
    else
      match chSplit sep cs with
      | [] => [[c]]
      | g :: gs => (c :: g) :: gs

/-- Python content.split( of a newline): the document's lines. -/
def pyLines (s : String) : List String :=
  (chSplit '\n' s.toList).map String.mk

/-- Python string indexing s[n:]: drop the first n characters. -/
def pyDrop (n : Nat) (s : String) : String := String.mk (s.toList.drop n)

/-- Prefix test on character lists. -/
def chStarts : List Char → List Char → Bool
  | [], _ => true
  | _, [] => false
  | a :: as, b :: bs => a = b && chStarts as bs

/-- Python s.startswith(pre). -/
def pyStartsWith (s pre : String) : Bool := chStarts pre.toList s.toList

/-- Substring test on character lists (needle, haystack). -/
def chContains (needle : List Char) : List Char → Bool
  | [] => needle.isEmpty
  | c :: cs => chStarts needle (c :: cs) || chContains needle cs

/-- Python needle in hay (substring containment). -/
def pyIn (needle hay : String) : Bool := chContains needle.toList hay.toList

/-- Python str.lower() (the code only relies on ASCII lowering; we model
exactly the ASCII range). -/
def pyLower (s : String) : String := String.mk (s.toList.map Char.toLower)

/-- Python a newline-join of lines (the inverse of the line split). -/
def joinLines (ls : List String) : String := String.intercalate "\n" ls

/-- Python dict lookup d.get(k) on an insertion-ordered association list. -/
def alookup {β : Type} (k : String) : List (String × β) → Option β
  | [] => none
  | (k', v) :: rest => if k' = k then some v else alookup k rest

/-- The keys of an insertion-ordered dict, in order. -/
def keys {β : Type} (l : List (String × β)) : List String := l.map Prod.fst

/-- Python dict assignment d[k] = v: update the value in place if the key
exists (keeping its position), otherwise append the new key at the end. -/
def dictInsert {β : Type} (k : String) (v : β) : List (String × β) → List (String × β)
  | [] => [(k, v)]
  | (k', v') :: rest =>
    if k' = k then (k, v) :: rest else (k', v') :: dictInsert k v rest

/-- One handoff file as seen by the analytics code: its filename, its full
text content, and its last-modification time in whole seconds. -/
structure HFile where
  name : String
  content : String
  mtime : Int
  deriving DecidableEq, Repr

/-! ## Document parser (parse_handoff, src/analytics.py lines 69-98) -/

/-- The state of the line loop of parse_handoff: the sections dict built so
far, the current_section variable (Python None or a string), and the
current_content line list. -/
structure ParseState where
  sections : List (String × String)
  cur : Option String
  acc : List String
  deriving DecidableEq, Repr

/-- Flushing the accumulated section on reaching a heading or the end of
input: Python runs sections[current_section] = body under the truthiness
test if current_section, so a None or empty-string heading stores
nothing. -/
def flushSec (st : ParseState) : List (String × String) :=
  match st.cur with
  | some h => if h = "" then st.sections else dictInsert h (pyStrip (joinLines st.acc)) st.sections
  | none => st.sections

/-- One iteration of the parse loop over a line. -/
def parseStep (st : ParseState) (line : String) : ParseState :=
  if pyStartsWith line "## " then
    { sections := flushSec st, cur := some (pyStrip (pyDrop 3 line)), acc := [] }
  else
    { st with acc := st.acc ++ [line] }

/-- parse_handoff's section loop on an explicit line list. -/
def parseLines (ls : List String) : List (String × String) :=
  flushSec (ls.foldl parseStep { sections := [], cur := none, acc := [] })

/-- The sections dict built by parse_handoff from a document's text. -/
def parse_sections (content : String) : List (String × String) :=
  parseLines (pyLines content)

/-- The 14-character timestamp token pattern (two digits, three ASCII
letters, four digits, a dash, four digits) tested at the head of a
character list. -/
def tokenAt : List Char → Option (List Char)
  | a :: b :: c :: d :: e :: f :: g :: h :: i :: j :: k :: l :: m :: n :: _ =>
    if a.isDigit && b.isDigit && c.isAlpha && d.isAlpha && e.isAlpha &&
       f.isDigit && g.isDigit && h.isDigit && i.isDigit && j = '-' &&
       k.isDigit && l.isDigit && m.isDigit && n.isDigit then
      some [a, b, c, d, e, f, g, h, i, j, k, l, m, n]
    else none
  | _ => none

/-- re.search of the timestamp pattern: the match at the leftmost starting
position wins. -/
def searchToken : List Char → Option String
  | [] => none
  | c :: rest =>
    match tokenAt (c :: rest) with
    | some t => some (String.mk t)
    | none => searchToken rest

/-- A parsed handoff document (the dict returned by parse_handoff; the
filepath entry is the HFile itself and is not repeated here). -/
structure ParsedDoc where
  filename : String
  timestamp : String
  sections : List (String × String)
  modified : Int
  deriving DecidableEq, Repr

/-- parse_handoff: split the content into sections and extract the
filename timestamp token (the literal Unknown if the pattern is absent). -/
def parse_handoff (f : HFile) : ParsedDoc :=
  { filename := f.name
    timestamp := (searchToken f.name.toList).getD "Unknown"
    sections := parse_sections f.content
    modified := f.mtime }

/-! ## Confidence extractor (extract_confidence_levels, lines 101-118) -/

/-- The if/elif chain classifying one section body, exactly as in the
source: high, then low, then medium, else unknown. -/
def classifyConfidence (content : String) : String :=
  if pyIn "✅" content || pyIn "high confidence" (pyLower content) then "high"
  else if pyIn "❓" content || pyIn "low confidence" (pyLower content) then "low"
  else if pyIn "⚠️" content || pyIn "medium confidence" (pyLower content) then "medium"
  else "unknown"

/-- extract_confidence_levels: one label per section, keyed like the
sections dict. -/
def extract_confidence_levels (sections : List (String × String)) : List (String × String) :=
  sections.map (fun p => (p.1, classifyConfidence p.2))

/-! ## Issue extractor (extract_issues, lines 121-146) -/

def bugKeywords : List String := ["broken", "bug", "issue", "error", "doesnt work"]

/-- extract_issues: the risk loop over the What Could Go Wrong body,
then the bug loop over the Current System State body, appending
(type, description) pairs in line order. -/
def extract_issues (sections : List (String × String)) : List (String × String) :=
  let wcgw := (alookup "What Could Go Wrong" sections).getD ""
  let issues1 := (pyLines wcgw).foldl
    (fun acc line =>
      let l := pyStrip line
      if pyStartsWith l "-" || pyStartsWith l "*" then
        acc ++ [("risk", pyStrip (pyDrop 1 l))]
      else acc) []
  let state := (alookup "Current System State" sections).getD ""
  (pyLines state).foldl
    (fun acc line =>
      if bugKeywords.any (fun kw => pyIn kw (pyLower line)) then
        if pyStartsWith (pyStrip line) "-" || pyStartsWith (pyStrip line) "*" then
          acc ++ [("bug", pyStrip (pyDrop 1 (pyStrip line)))]
        else acc
      else acc) issues1

/-! ## Aggregation engine (analyze_handoffs, lines 149-196) -/

/-- One extracted issue after the aggregation loop tagged it with its
source handoff's filename and modification time. -/
structure Issue where
  type : String
  description : String
  handoff : String
  timestamp : Int
  deriving DecidableEq, Repr

/-- The per-section confidence counters held in the confidence_trends
defaultdict (the unknown label has no counter). -/
structure ConfCounts where
  high : Nat
  medium : Nat
  low : Nat
  deriving DecidableEq, Repr

/-- The optional time_span entry: start and end (a Lean keyword, so the
end field is named stop) of the modification times, and the floored
whole-day duration between them. -/
structure TimeSpan where
  start : Int
  stop : Int
  duration_days : Int
  deriving DecidableEq, Repr

/-- The analytics dict built by analyze_handoffs (the unused
project_phases list is omitted). -/
structure AnalyticsData where
  total_handoffs : Nat
  time_span : Option TimeSpan
  handoffs : List ParsedDoc
  issues : List Issue
  confidence_trends : List (String × ConfCounts)
  sections_frequency : List (String × Nat)
  deriving DecidableEq, Repr

/-- Adding one to the counter for a label (called only with one of the
three counted labels). -/
def bumpLevel (level : String) (t : ConfCounts) : ConfCounts :=
  if level = "high" then { t with high := t.high + 1 }
  else if level = "medium" then { t with medium := t.medium + 1 }
  else if level = "low" then { t with low := t.low + 1 }
  else t

/-- data of confidence_trends at section, at level, += 1: the defaultdict
creates a zero record for an unseen section (appended, like a fresh dict
key), then the label's counter is incremented. -/
def trendsBump (k level : String) : List (String × ConfCounts) → List (String × ConfCounts)
  | [] => [(k, bumpLevel level { high := 0, medium := 0, low := 0 })]
  | (k', t) :: rest =>
    if k' = k then (k', bumpLevel level t) :: rest
    else (k', t) :: trendsBump k level rest

/-- Counter increment: sections_frequency[name] += 1. -/
def dictBump (k : String) : List (String × Nat) → List (String × Nat)
  | [] => [(k, 1)]
  | (k', v) :: rest =>
    if k' = k then (k', v + 1) :: rest else (k', v) :: dictBump k rest

/-- A Counter read c[k]: zero for a missing key. -/
def lookupCount (c : List (String × Nat)) (k : String) : Nat :=
  (alookup k c).getD 0

/-- The body of the for handoff in handoffs loop of analyze_handoffs:
parse, append the parsed document, append its tagged issues, fold its
confidence labels (non-unknown only) into confidence_trends, and count
each of its section headings once. -/
def analyzeStep (data : AnalyticsData) (f : HFile) : AnalyticsData :=
  let parsed := parse_handoff f
  let issues := extract_issues parsed.sections
  let tagged := issues.map (fun p =>
    { type := p.1, description := p.2, handoff := parsed.filename,
      timestamp := parsed.modified : Issue })
  let confs := extract_confidence_levels parsed.sections
  let trends := confs.foldl
    (fun tr p =>
      if p.2 = "high" || p.2 = "medium" || p.2 = "low" then trendsBump p.1 p.2 tr else tr)
    data.confidence_trends
  let freq := (keys parsed.sections).foldl (fun c k => dictBump k c) data.sections_frequency
  { data with
    handoffs := data.handoffs ++ [parsed]
    issues := data.issues ++ tagged
    confidence_trends := trends
    sections_frequency := freq }

/-- Python min over a list of instants (min() raises on an empty list;
analyze_handoffs only applies it to a nonempty one). -/
def pyMin : List Int → Int
  | [] => 0
  | x :: xs => xs.foldl min x

/-- Python max over a list of instants. -/
def pyMax : List Int → Int
  | [] => 0
  | x :: xs => xs.foldl max x

/-- The data dict as analyze_handoffs initializes it (lines 151-159; the
timestamps list of the loop is the modification times of the parsed
documents, in corpus order). -/
def analyzeInit (files : List HFile) : AnalyticsData :=
  { total_handoffs := files.length, time_span := none, handoffs := [],
    issues := [], confidence_trends := [], sections_frequency := [] }

/-- analyze_handoffs: the empty corpus returns the initial dict
(time_span None); otherwise every document is folded in and the time
span is computed from the modification-time extremes, the duration being
the floored number of whole days between them (timedelta.days). -/
def analyze_handoffs (files : List HFile) : AnalyticsData :=
  if files.isEmpty then analyzeInit files
  else if (files.map (fun f => (parse_handoff f).modified)).isEmpty then
    files.foldl analyzeStep (analyzeInit files)
  else
    { files.foldl analyzeStep (analyzeInit files) with
      time_span := some
        { start := pyMin (files.map (fun f => (parse_handoff f).modified))
          stop := pyMax (files.map (fun f => (parse_handoff f).modified))
          duration_days :=
            Int.fdiv (pyMax (files.map (fun f => (parse_handoff f).modified)) -
              pyMin (files.map (fun f => (parse_handoff f).modified))) 86400 } }

/-! ## Report renderers and the command dispatcher (lines 199-522)

The renderers print to standard output and return the value main hands to
sys.exit; the embedding keeps their return values (the printed text is
I/O) plus, for print_summary, the operands of its documents-per-day
division. -/

/-- print_summary (lines 199-232): prints totals and tables and always
returns 0. -/
def print_summary_ret (_data : AnalyticsData) : Nat := 0

/-- The documents-per-day computation of print_summary (lines 208-214):
Python computes total_handoffs / duration_days as a float only inside
the guard duration_days > 0; the embedding records the operands of that
division when it is performed. -/
def printSummaryRate (data : AnalyticsData) : Option (Int × Int) :=
  match data.time_span with
  | none => none
  | some span =>
    if span.duration_days > 0 then
      some ((data.total_handoffs : Int), span.duration_days)
    else none

/-- print_timeline (lines 235-258): returns 1 with nothing to show,
else 0. -/
def print_timeline_ret (data : AnalyticsData) : Nat :=
  if data.handoffs.isEmpty then 1 else 0

/-- print_confidence (lines 261-286): returns 1 when the
confidence_trends dict is empty, else 0. -/
def print_confidence_ret (data : AnalyticsData) : Nat :=
  if data.confidence_trends.isEmpty then 1 else 0

/-- print_issues (lines 289-317): returns 0 on both paths, including the
No issues found path (lines 291-293). -/
def print_issues_ret (_data : AnalyticsData) : Nat := 0

/-- generate_html_report (lines 320-437) writes the report and
returns 0. -/
def generate_html_report_ret (_data : AnalyticsData) : Nat := 0

/-! ## JSON export (export_json, lines 440-466)

The serialized document is modelled as a JSON tree built exactly as the
export_data dict is; json.dumps then pretty-prints it, so re-reading the
export reads this tree back. -/

inductive Json where
  | str : String → Json
  | num : Int → Json
  | arr : List Json → Json
  | obj : List (String × Json) → Json
  deriving Repr

/-- datetime.isoformat, abstracted to a rendering of the instant; the
claims only consult the document's structure. -/
def isoFormat (t : Int) : String := toString t

def issueToJson (i : Issue) : Json :=
  Json.obj [("type", Json.str i.type), ("description", Json.str i.description),
            ("handoff", Json.str i.handoff), ("timestamp", Json.str (isoFormat i.timestamp))]

def confCountsToJson (t : ConfCounts) : Json :=
  Json.obj [("high", Json.num t.high), ("medium", Json.num t.medium),
            ("low", Json.num t.low)]

/-- The export_data dict of export_json: totals, tagged issues with
ISO-8601 timestamps, both aggregation maps, and the optional
time_span. -/
def export_json_data (data : AnalyticsData) : Json :=
  Json.obj
    ([("total_handoffs", Json.num data.total_handoffs),
      ("issues", Json.arr (data.issues.map issueToJson)),
      ("confidence_trends", Json.obj (data.confidence_trends.map
        (fun p => (p.1, confCountsToJson p.2)))),
      ("sections_frequency", Json.obj (data.sections_frequency.map
        (fun p => (p.1, Json.num p.2))))] ++
     (match data.time_span with
      | some ts =>
        [("time_span", Json.obj
          [("start", Json.str (isoFormat ts.start)),
           ("end", Json.str (isoFormat ts.stop)),
           ("duration_days", Json.num ts.duration_days)])]
      | none => []))

/-- export_json writes the document and returns 0. -/
def export_json_ret (_data : AnalyticsData) : Nat := 0

/-- Reading a top-level key back from an exported document. -/
def jsonLookup (k : String) : Json → Option Json
  | Json.obj kvs => alookup k kvs
  | _ => none

/-- Re-reading the exported total_handoffs value. -/
def readTotalDocs (j : Json) : Option Int :=
  match jsonLookup "total_handoffs" j with
  | some (Json.num n) => some n
  | _ => none

/-- Re-reading the exported issue count. -/
def readIssueCount (j : Json) : Option Nat :=
  match jsonLookup "issues" j with
  | some (Json.arr l) => some l.length
  | _ => none

/-! ## main (lines 469-522) -/

inductive ExportFmt | json | html
  deriving DecidableEq, Repr

inductive Command | summary | timeline | confidence | issues | report
  deriving DecidableEq, Repr

/-- What one invocation produced: the value returned to sys.exit, whether
the No handoff documents found message was printed, and whether an
export or report file was written. -/
structure MainResult where
  exitCode : Nat
  printedNoDocs : Bool
  exportWritten : Bool
  deriving DecidableEq, Repr

/-- main: list the corpus (given here as the already-listed files), bail
out with code 1 and a message when it is empty, otherwise analyze and
dispatch on the export flag and then the subcommand (no subcommand
defaults to the summary). -/
def mainRun (files : List HFile) (exportFmt : Option ExportFmt)
    (cmd : Option Command) : MainResult :=
  if files.isEmpty then
    { exitCode := 1, printedNoDocs := true, exportWritten := false }
  else
    let data := analyze_handoffs files
    match exportFmt with
    | some ExportFmt.json =>
      { exitCode := export_json_ret data, printedNoDocs := false, exportWritten := true }
    | some ExportFmt.html =>
      { exitCode := generate_html_report_ret data, printedNoDocs := false, exportWritten := true }
    | none =>
      match cmd with
      | none =>
        { exitCode := print_summary_ret data, printedNoDocs := false, exportWritten := false }
      | some Command.summary =>
        { exitCode := print_summary_ret data, printedNoDocs := false, exportWritten := false }
      | some Command.timeline =>
        { exitCode := print_timeline_ret data, printedNoDocs := false, exportWritten := false }
      | some Command.confidence =>
        { exitCode := print_confidence_ret data, printedNoDocs := false, exportWritten := false }
      | some Command.issues =>
        { exitCode := print_issues_ret data, printedNoDocs := false, exportWritten := false }
      | some Command.report =>
        { exitCode := generate_html_report_ret data, printedNoDocs := false, exportWritten := true }


/-! ## Spec-side rule formulations, for refinement statements -/

/-- The high rule's condition: the check character or the case-insensitive
phrase. -/
def hiCond (body : String) : Bool :=
  pyIn "✅" body || pyIn "high confidence" (pyLower body)

/-- The low rule's condition. -/
def loCond (body : String) : Bool :=
  pyIn "❓" body || pyIn "low confidence" (pyLower body)

/-- The medium rule's condition. -/
def medCond (body : String) : Bool :=
  pyIn "⚠️" body || pyIn "medium confidence" (pyLower body)

/-- The confidence rules as an explicit ordered predicate-to-label table,
in the priority order the spec fixes: high, low, medium. -/
def confRules : List ((String → Bool) × String) :=
  [(hiCond, "high"), (loCond, "low"), (medCond, "medium")]

/-- Top-to-bottom, short-circuiting evaluation of an ordered rule table;
no rule firing yields unknown. -/
def evalRules : List ((String → Bool) × String) → String → String
  | [], _ => "unknown"
  | (p, lab) :: rest, body => if p body then lab else evalRules rest body

/-- The spec's risk rule on one line of the What Could Go Wrong body. -/
def riskOfLine (line : String) : Option (String × String) :=
  if pyStartsWith (pyStrip line) "-" || pyStartsWith (pyStrip line) "*" then
    some ("risk", pyStrip (pyDrop 1 (pyStrip line)))
  else none

/-- The spec's bug rule on one line of the Current System State body. -/
def bugOfLine (line : String) : Option (String × String) :=
  if bugKeywords.any (fun kw => pyIn kw (pyLower line)) then
    if pyStartsWith (pyStrip line) "-" || pyStartsWith (pyStrip line) "*" then
      some ("bug", pyStrip (pyDrop 1 (pyStrip line)))
    else none
  else none

/-- The risks the spec demands from a document's sections. -/
def specRisks (sections : List (String × String)) : List (String × String) :=
  (pyLines ((alookup "What Could Go Wrong" sections).getD "")).filterMap riskOfLine

/-- The bugs the spec demands from a document's sections. -/
def specBugs (sections : List (String × String)) : List (String × String) :=
  (pyLines ((alookup "Current System State" sections).getD "")).filterMap bugOfLine

/-! ## Helper lemmas -/

theorem foldl_step_filterMap {α β : Type} (f : α → Option β) (g : List β → α → List β)
    (hg : ∀ acc x, g acc x = acc ++ (f x).toList) :
    ∀ (l : List α) (init : List β), l.foldl g init = init ++ l.filterMap f := by
  intro l
  induction l with
  | nil => intro init; simp
  | cons x xs ih =>
    intro init
    rw [List.foldl_cons, hg, ih, List.filterMap_cons]
    cases hfx : f x <;> simp

theorem risk_step (acc : List (String × String)) (x : String) :
    (let l := pyStrip x
     if pyStartsWith l "-" || pyStartsWith l "*" then
       acc ++ [("risk", pyStrip (pyDrop 1 l))]
     else acc)
      = acc ++ (riskOfLine x).toList := by
  cases hc : (pyStartsWith (pyStrip x) "-" || pyStartsWith (pyStrip x) "*") <;>
    simp [riskOfLine, hc]

theorem bug_step (acc : List (String × String)) (x : String) :
    (if bugKeywords.any (fun kw => pyIn kw (pyLower x)) then
       if pyStartsWith (pyStrip x) "-" || pyStartsWith (pyStrip x) "*" then
         acc ++ [("bug", pyStrip (pyDrop 1 (pyStrip x)))]
       else acc
     else acc)
      = acc ++ (bugOfLine x).toList := by
  cases hk : (bugKeywords.any (fun kw => pyIn kw (pyLower x)))
  · simp [bugOfLine, hk]
  · cases hc : (pyStartsWith (pyStrip x) "-" || pyStartsWith (pyStrip x) "*") <;>
      simp [bugOfLine, hk, hc]

theorem risk_foldl_eq : ∀ (ls : List String) (init : List (String × String)),
    ls.foldl
      (fun acc line =>
        let l := pyStrip line
        if pyStartsWith l "-" || pyStartsWith l "*" then
          acc ++ [("risk", pyStrip (pyDrop 1 l))]
        else acc) init
      = init ++ ls.filterMap riskOfLine :=
  foldl_step_filterMap riskOfLine _ risk_step

theorem bug_foldl_eq : ∀ (ls : List String) (init : List (String × String)),
    ls.foldl
      (fun acc line =>
        if bugKeywords.any (fun kw => pyIn kw (pyLower line)) then
          if pyStartsWith (pyStrip line) "-" || pyStartsWith (pyStrip line) "*" then
            acc ++ [("bug", pyStrip (pyDrop 1 (pyStrip line)))]
          else acc
        else acc) init
      = init ++ ls.filterMap bugOfLine :=
  foldl_step_filterMap bugOfLine _ bug_step

/-! ## Claim theorems -/

/-- C1: the confidence classifier evaluates an ordered rule table, first
match wins, in the fixed priority order high, low, medium, unknown; in
particular any body carrying both a high-confidence marker and a
low-confidence marker is labeled high. -/
theorem extract_confidence_rule_order :
    (∀ sections, extract_confidence_levels sections =
      sections.map (fun p => (p.1, evalRules confRules p.2))) ∧
    (∀ body, hiCond body = true → loCond body = true →
      classifyConfidence body = "high") := by
  constructor
  · intro sections
    rfl
  · intro body hh _
    have h2 : (pyIn "✅" body || pyIn "high confidence" (pyLower body)) = true := hh
    simp [classifyConfidence, h2]

/-- Witness for C1: a body containing both the check mark and the phrase
low confidence is classified high. -/
theorem extract_confidence_rule_order_witness :
    classifyConfidence "✅ tests pass, but low confidence in the cache" = "high" :=
  extract_confidence_rule_order.2 "✅ tests pass, but low confidence in the cache"
    (by decide) (by decide)

/-- C3: extract_issues returns exactly the risk lines of the
What Could Go Wrong section followed by the bug lines of the
Current System State section, and a missing section contributes no
issues. -/
theorem extract_issues_characterization :
    (∀ sections, extract_issues sections = specRisks sections ++ specBugs sections) ∧
    (∀ sections, alookup "What Could Go Wrong" sections = none →
      specRisks sections = []) ∧
    (∀ sections, alookup "Current System State" sections = none →
      specBugs sections = []) := by
  refine ⟨?_, ?_, ?_⟩
  · intro sections
    show (pyLines ((alookup "Current System State" sections).getD "")).foldl _
        ((pyLines ((alookup "What Could Go Wrong" sections).getD "")).foldl _ []) = _
    rw [bug_foldl_eq, risk_foldl_eq]
    simp [specRisks, specBugs]
  · intro sections h
    simp [specRisks, h]
    decide
  · intro sections h
    simp [specBugs, h]
    decide

/-- Witness for C3: the empty sections dict has neither scanned section,
and yields no risks and no bugs. -/
theorem extract_issues_characterization_witness :
    specRisks ([] : List (String × String)) = [] ∧
    specBugs ([] : List (String × String)) = [] :=
  ⟨extract_issues_characterization.2.1 [] rfl,
   extract_issues_characterization.2.2 [] rfl⟩

/-- C9: re-reading the exported JSON document returns exactly the
in-memory snapshot's total document count and issue count. -/
theorem export_json_round_trip (d : AnalyticsData) :
    readTotalDocs (export_json_data d) = some (d.total_handoffs : Int) ∧
    readIssueCount (export_json_data d) = some d.issues.length := by
  constructor
  · rfl
  · simp [readIssueCount, jsonLookup, export_json_data, alookup]

/-! ## Spec-side section occurrences

The spec describes the parser by segments: every heading line opens an
occurrence whose body is the following lines, trimmed. The parser's dict
is then characterized against the full occurrence list. -/

/-- Occurrence-collecting state: like ParseState but every occurrence is
appended, none overwritten and none dropped. -/
structure OccState where
  occs : List (String × String)
  cur : Option String
  acc : List String
  deriving DecidableEq, Repr

def occFlush (st : OccState) : List (String × String) :=
  match st.cur with
  | some h => st.occs ++ [(h, pyStrip (joinLines st.acc))]
  | none => st.occs

def occStep (st : OccState) (line : String) : OccState :=
  if pyStartsWith line "## " then
    { occs := occFlush st, cur := some (pyStrip (pyDrop 3 line)), acc := [] }
  else
    { st with acc := st.acc ++ [line] }

def occLines (ls : List String) : List (String × String) :=
  occFlush (ls.foldl occStep { occs := [], cur := none, acc := [] })

/-- Every heading occurrence of the document with its trimmed body, in
document order, duplicates and empty headings included. -/
def occurrences (content : String) : List (String × String) :=
  occLines (pyLines content)

/-- Folding a list of (heading, body) pairs into a dict with repeated
insertions. -/
def dictFold (d : List (String × String)) (l : List (String × String)) :
    List (String × String) :=
  l.foldl (fun d p => dictInsert p.1 p.2 d) d

/-- First-biased Option choice. -/
def optOr {β : Type} : Option β → Option β → Option β
  | some v, _ => some v
  | none, o => o

theorem optOr_none_right {β : Type} (o : Option β) : optOr o none = o := by
  cases o <;> rfl

theorem optOr_assoc {β : Type} (a b c : Option β) :
    optOr (optOr a b) c = optOr a (optOr b c) := by
  cases a <;> rfl

theorem alookup_dictInsert {β : Type} (h k : String) (v : β) (d : List (String × β)) :
    alookup h (dictInsert k v d) = if k = h then some v else alookup h d := by
  induction d with
  | nil => rfl
  | cons p rest ih =>
    obtain ⟨k', v'⟩ := p
    by_cases hk : k' = k
    · subst hk
      by_cases hh : k' = h <;> simp [dictInsert, alookup, hh]
    · by_cases hh : k' = h
      · subst hh
        have : ¬ k = k' := fun he => hk he.symm
        simp [dictInsert, alookup, hk, this]
      · simp [dictInsert, alookup, hk, hh, ih]

theorem alookup_append {β : Type} (h : String) (l1 l2 : List (String × β)) :
    alookup h (l1 ++ l2) = optOr (alookup h l1) (alookup h l2) := by
  induction l1 with
  | nil => rfl
  | cons p rest ih =>
    by_cases hh : p.1 = h
    · simp [alookup, hh, optOr]
    · simp [alookup, hh, ih]

theorem alookup_dictFold (l : List (String × String)) :
    ∀ (d : List (String × String)) (h : String),
      alookup h (dictFold d l) = optOr (alookup h l.reverse) (alookup h d) := by
  induction l with
  | nil => intro d h; rfl
  | cons p rest ih =>
    intro d h
    have step : dictFold d (p :: rest) = dictFold (dictInsert p.1 p.2 d) rest := rfl
    rw [step, ih, List.reverse_cons, alookup_append, optOr_assoc]
    congr 1
    rw [alookup_dictInsert]
    by_cases hh : p.1 = h <;> simp [alookup, hh, optOr]

theorem alookup_filter_ne {β : Type} (h : String) (hne : h ≠ "")
    (l : List (String × β)) :
    alookup h (l.filter (fun p => p.1 ≠ "")) = alookup h l := by
  induction l with
  | nil => rfl
  | cons p rest ih =>
    obtain ⟨k', v'⟩ := p
    rw [List.filter_cons]
    by_cases hp : k' = ""
    · subst hp
      have hph : ¬ (("" : String) = h) := fun he => hne he.symm
      rw [if_neg (by simp)]
      rw [ih]
      show alookup h rest = if ("" : String) = h then some v' else alookup h rest
      rw [if_neg hph]
    · rw [if_pos (by simp [hp])]
      show (if k' = h then some v' else alookup h (List.filter _ rest))
          = if k' = h then some v' else alookup h rest
      by_cases hh : k' = h
      · rw [if_pos hh, if_pos hh]
      · rw [if_neg hh, if_neg hh, ih]

/-- The parse state and the occurrence state stay related: the sections
dict is the dict-fold of the nonempty-headed occurrences, and the loop
variables coincide. -/
def StBridge (stP : ParseState) (stO : OccState) : Prop :=
  stP.sections = dictFold [] (stO.occs.filter (fun p => p.1 ≠ "")) ∧
  stP.cur = stO.cur ∧ stP.acc = stO.acc

theorem flush_bridge (stP : ParseState) (stO : OccState) (hb : StBridge stP stO) :
    flushSec stP = dictFold [] ((occFlush stO).filter (fun p => p.1 ≠ "")) := by
  obtain ⟨h1, h2, h3⟩ := hb
  cases hco : stO.cur with
  | none =>
    simp [flushSec, occFlush, h2, hco, h1]
  | some hd =>
    by_cases hhd : hd = ""
    · subst hhd
      simp [flushSec, occFlush, h2, hco, h1, List.filter_append, List.filter_cons,
        dictFold]
    · simp [flushSec, occFlush, h2, h3, hco, h1, hhd, List.filter_append,
        List.filter_cons, dictFold]

theorem step_bridge (stP : ParseState) (stO : OccState) (hb : StBridge stP stO)
    (line : String) : StBridge (parseStep stP line) (occStep stO line) := by
  obtain ⟨h1, h2, h3⟩ := hb
  by_cases hl : pyStartsWith line "## " = true
  · refine ⟨?_, ?_, ?_⟩ <;>
      simp [parseStep, occStep, hl, flush_bridge stP stO ⟨h1, h2, h3⟩]
  · refine ⟨?_, ?_, ?_⟩ <;> simp [parseStep, occStep, hl, h1, h2, h3]

theorem run_bridge (ls : List String) :
    ∀ (stP : ParseState) (stO : OccState), StBridge stP stO →
      StBridge (ls.foldl parseStep stP) (ls.foldl occStep stO) := by
  induction ls with
  | nil => intro stP stO hb; exact hb
  | cons l rest ih =>
    intro stP stO hb
    exact ih _ _ (step_bridge stP stO hb l)

/-- The parser's dict is exactly the insert-fold of the occurrences whose
heading is nonempty. -/
theorem parse_occ (content : String) :
    parse_sections content =
      dictFold [] ((occurrences content).filter (fun p => p.1 ≠ "")) := by
  have h0 : StBridge { sections := [], cur := none, acc := [] }
      { occs := [], cur := none, acc := [] } := ⟨rfl, rfl, rfl⟩
  exact flush_bridge _ _ (run_bridge (pyLines content) _ _ h0)

/-- Looking a nonempty heading up in the parsed dict yields the body of
its last occurrence. -/
theorem parse_lookup_last (content : String) (h : String) (hne : h ≠ "") :
    alookup h (parse_sections content) = alookup h (occurrences content).reverse := by
  rw [parse_occ, alookup_dictFold]
  show optOr (alookup h ((occurrences content).filter (fun p => p.1 ≠ "")).reverse) none = _
  rw [optOr_none_right, ← List.filter_reverse, alookup_filter_ne h hne]

/-- With no section open, the accumulated content is dead state: the loop
discards it at the next heading, and the final flush discards it too. -/
theorem parse_cc_irrelevant (ls : List String) :
    ∀ (secs : List (String × String)) (cc cc' : List String),
      flushSec (ls.foldl parseStep { sections := secs, cur := none, acc := cc }) =
      flushSec (ls.foldl parseStep { sections := secs, cur := none, acc := cc' }) := by
  induction ls with
  | nil => intro secs cc cc'; rfl
  | cons l rest ih =>
    intro secs cc cc'
    by_cases hl : pyStartsWith l "## " = true
    · simp only [List.foldl_cons, parseStep, hl, if_pos, flushSec]
    · simp only [List.foldl_cons, parseStep, hl, if_neg]
      exact ih secs (cc ++ [l]) (cc' ++ [l])

/-- Processing heading-free lines with no section open only grows the dead
accumulator. -/
theorem parse_preamble_state (pre : List String)
    (hpre : ∀ l ∈ pre, pyStartsWith l "## " = false) :
    ∀ (secs : List (String × String)) (cc : List String),
      pre.foldl parseStep { sections := secs, cur := none, acc := cc } =
        { sections := secs, cur := none, acc := cc ++ pre } := by
  induction pre with
  | nil => intro secs cc; simp
  | cons l rest ih =>
    intro secs cc
    have hl : pyStartsWith l "## " = false := hpre l (List.mem_cons_self l rest)
    have hrest : ∀ x ∈ rest, pyStartsWith x "## " = false :=
      fun x hx => hpre x (List.mem_cons_of_mem l hx)
    simp only [List.foldl_cons, parseStep, hl]
    rw [if_neg (by simp [hl])]
    rw [ih hrest]
    simp

/-- Heading-free material ahead of the first heading changes nothing. -/
theorem parse_preamble_discarded (pre ls : List String)
    (hpre : ∀ l ∈ pre, pyStartsWith l "## " = false) :
    parseLines (pre ++ ls) = parseLines ls := by
  unfold parseLines
  rw [List.foldl_append, parse_preamble_state pre hpre]
  simpa using parse_cc_irrelevant ls [] ([] ++ pre) []

/-- Counterexample for C2 as stated: in the document whose lines are
two bare heading lines each followed by one body line, the heading text
(the empty string, trimmed from a bare heading line) occurs twice, its
last occurrence's body is the line b, yet the parser's dict stores
nothing for it: the truthiness test of parse_handoff drops
empty-string headings. -/
theorem parse_handoff_empty_heading_cex :
    alookup "" (parse_sections "## \na\n## \nb") = none ∧
    alookup "" (occurrences "## \na\n## \nb").reverse = some "b" := by
  constructor <;> decide

/-- C2 (amended): splitting is on lines beginning with the heading marker,
and for every heading text that trims to a nonempty string the parsed
dict stores the body of its last occurrence (last-write-wins, exact
case-sensitive key equality); every occurrence with an empty trimmed
heading is discarded, as is all line material before the first heading. -/
theorem parse_handoff_last_write_wins :
    (∀ (content : String) (h : String), h ≠ "" →
      alookup h (parse_sections content) = alookup h (occurrences content).reverse) ∧
    (∀ (pre ls : List String), (∀ l ∈ pre, pyStartsWith l "## " = false) →
      parseLines (pre ++ ls) = parseLines ls) :=
  ⟨parse_lookup_last, parse_preamble_discarded⟩

/-- Witness for C2: on a concrete document with a repeated heading and a
preamble, the stored body is the last occurrence's. -/
theorem parse_handoff_last_write_wins_witness :
    alookup "A" (parse_sections "intro\n## A\nfirst\n## A\nsecond") = some "second" ∧
    parseLines (["intro"] ++ ["## A", "body"]) = parseLines ["## A", "body"] :=
  ⟨(parse_handoff_last_write_wins.1 "intro\n## A\nfirst\n## A\nsecond" "A"
      (by decide)).trans (by decide),
   parse_handoff_last_write_wins.2 ["intro"] ["## A", "body"] (by decide)⟩

/-! ## Key order of the parsed dict (for the first-seen ordering claim) -/

/-- The first occurrence of each element, in order; the seen accumulator
holds the elements already emitted. -/
def firstDedupAux (seen : List String) : List String → List String
  | [] => []
  | x :: xs =>
    if x ∈ seen then firstDedupAux seen xs
    else x :: firstDedupAux (x :: seen) xs

/-- Each distinct element once, at the position of its first occurrence. -/
def firstDedup (l : List String) : List String := firstDedupAux [] l

theorem keys_dictInsert {β : Type} (k : String) (v : β) (d : List (String × β)) :
    keys (dictInsert k v d) = if k ∈ keys d then keys d else keys d ++ [k] := by
  induction d with
  | nil => simp [dictInsert, keys]
  | cons p rest ih =>
    obtain ⟨k', v'⟩ := p
    by_cases hk : k' = k
    · subst hk
      simp [dictInsert, keys]
    · have hkk : ¬ (k = k') := fun he => hk he.symm
      have hmc : (k ∈ keys ((k', v') :: rest)) ↔ k ∈ keys rest := by
        simp [keys, hkk]
      have h1 : keys (dictInsert k v ((k', v') :: rest)) =
          k' :: keys (dictInsert k v rest) := by
        simp [dictInsert, hk, keys]
      rw [h1, ih]
      by_cases hm : k ∈ keys rest
      · rw [if_pos hm, if_pos (hmc.mpr hm)]
        rfl
      · rw [if_neg hm, if_neg (fun hh => hm (hmc.mp hh))]
        rfl

theorem firstDedupAux_congr (l : List String) :
    ∀ (s1 s2 : List String), (∀ a, a ∈ s1 ↔ a ∈ s2) →
      firstDedupAux s1 l = firstDedupAux s2 l := by
  induction l with
  | nil => intro s1 s2 _; rfl
  | cons x xs ih =>
    intro s1 s2 hs
    by_cases hx : x ∈ s1
    · rw [firstDedupAux, firstDedupAux, if_pos hx, if_pos ((hs x).mp hx)]
      exact ih s1 s2 hs
    · rw [firstDedupAux, firstDedupAux, if_neg hx, if_neg (fun h => hx ((hs x).mpr h))]
      refine congrArg (x :: ·) (ih _ _ ?_)
      intro a
      simp [hs a]

theorem keys_dictFold (l : List (String × String)) :
    ∀ (d : List (String × String)),
      keys (dictFold d l) = keys d ++ firstDedupAux (keys d) (l.map Prod.fst) := by
  induction l with
  | nil => intro d; simp [dictFold, firstDedupAux]
  | cons p rest ih =>
    intro d
    have step : dictFold d (p :: rest) = dictFold (dictInsert p.1 p.2 d) rest := rfl
    rw [step, ih, keys_dictInsert, List.map_cons]
    by_cases hm : p.1 ∈ keys d
    · rw [if_pos hm, firstDedupAux, if_pos hm]
    · rw [if_neg hm, firstDedupAux, if_neg hm]
      rw [List.append_assoc]
      refine congrArg (keys d ++ ·) ?_
      rw [List.singleton_append]
      refine congrArg (p.1 :: ·) ?_
      refine firstDedupAux_congr _ _ _ ?_
      intro a
      simp [or_comm]

/-- Keys emitted by firstDedupAux avoid the seen set and repeat nothing. -/
theorem firstDedupAux_nodup (l : List String) :
    ∀ (seen : List String),
      (firstDedupAux seen l).Nodup ∧ ∀ x ∈ firstDedupAux seen l, x ∉ seen := by
  induction l with
  | nil => intro seen; simp [firstDedupAux]
  | cons x xs ih =>
    intro seen
    by_cases hx : x ∈ seen
    · rw [firstDedupAux, if_pos hx]
      exact ih seen
    · rw [firstDedupAux, if_neg hx]
      obtain ⟨hnd, hav⟩ := ih (x :: seen)
      refine ⟨List.nodup_cons.mpr ⟨?_, hnd⟩, ?_⟩
      · intro hxmem
        exact hav x hxmem (List.mem_cons_self x seen)
      · intro y hy
        rcases List.mem_cons.mp hy with hyx | hymem
        · subst hyx; exact hx
        · intro hys
          exact hav y hymem (List.mem_cons_of_mem x hys)

theorem map_fst_filter_ne {β : Type} (l : List (String × β)) :
    (l.filter (fun p => p.1 ≠ "")).map Prod.fst =
      (l.map Prod.fst).filter (fun s => s ≠ "") := by
  induction l with
  | nil => rfl
  | cons p rest ih =>
    rw [List.filter_cons, List.map_cons, List.filter_cons]
    by_cases hp : p.1 = ""
    · rw [if_neg (by simp [hp]), if_neg (by simp [hp])]
      exact ih
    · rw [if_pos (by simp [hp]), if_pos (by simp [hp])]
      rw [List.map_cons, ih]

/-- The parsed dict's key list, characterized: the nonempty headings in
first-occurrence order. -/
theorem parse_keys_characterized (content : String) :
    keys (parse_sections content) =
      firstDedup (((occurrences content).map Prod.fst).filter (fun s => s ≠ "")) := by
  rw [parse_occ, keys_dictFold, map_fst_filter_ne]
  rfl

/-- The parsed dict's keys never repeat. -/
theorem parse_keys_nodup (content : String) :
    (keys (parse_sections content)).Nodup := by
  rw [parse_keys_characterized]
  exact (firstDedupAux_nodup _ []).1

/-- Counterexample for C10 as stated: in the document with a bare heading
line before the heading A, the headings occur in the order empty-then-A,
but the parser's key order is just A: an empty trimmed heading never
becomes a key, so the key order is not the order of each heading's first
occurrence. -/
theorem section_key_order_cex :
    keys (parse_sections "## \nx\n## A\ny") = ["A"] ∧
    firstDedup ((occurrences "## \nx\n## A\ny").map Prod.fst) = ["", "A"] ∧
    (["A"] : List String) ≠ ["", "A"] := by
  refine ⟨by decide, by decide, by decide⟩

/-- C10 (amended): the parsed dict's key order is the order of each
nonempty trimmed heading's first occurrence; a recurring heading
overwrites the stored body without moving the key, and empty trimmed
headings contribute no key. -/
theorem section_key_order_first_seen (content : String) :
    keys (parse_sections content) =
      firstDedup (((occurrences content).map Prod.fst).filter (fun s => s ≠ "")) :=
  parse_keys_characterized content

/-! ## Aggregation invariants -/

theorem alookup_isSome_iff_mem {β : Type} (h : String) (l : List (String × β)) :
    (alookup h l).isSome = true ↔ h ∈ keys l := by
  induction l with
  | nil => simp [alookup, keys]
  | cons p rest ih =>
    obtain ⟨k', v'⟩ := p
    by_cases hk : k' = h
    · subst hk
      simp [alookup, keys]
    · have : ¬ (h = k') := fun he => hk he.symm
      simp [alookup, keys, hk, this, ih]

theorem lookupCount_dictBump (k h : String) (c : List (String × Nat)) :
    lookupCount (dictBump k c) h = lookupCount c h + (if k = h then 1 else 0) := by
  induction c with
  | nil =>
    by_cases hk : k = h <;> simp [dictBump, lookupCount, alookup, hk]
  | cons p rest ih =>
    obtain ⟨k', v⟩ := p
    by_cases hk : k' = k
    · subst hk
      by_cases hh : k' = h <;> simp [dictBump, lookupCount, alookup, hh]
    · by_cases hh : k' = h
      · subst hh
        have : ¬ (k = k') := fun he => hk he.symm
        simp [dictBump, lookupCount, alookup, hk, this]
      · simp [dictBump, lookupCount, alookup, hk, hh] at ih ⊢
        exact ih

theorem lookupCount_foldl_bump (ks : List String) :
    ∀ (c : List (String × Nat)) (h : String),
      lookupCount (ks.foldl (fun c k => dictBump k c) c) h =
        lookupCount c h + ks.countP (fun k => k = h) := by
  induction ks with
  | nil => intro c h; simp
  | cons k rest ih =>
    intro c h
    rw [List.foldl_cons, ih, lookupCount_dictBump, List.countP_cons]
    by_cases hk : k = h <;> simp [hk] <;> omega

theorem countP_key_nodup (ks : List String) (h : String) (hnd : ks.Nodup) :
    ks.countP (fun k => k = h) = if h ∈ ks then 1 else 0 := by
  induction ks with
  | nil => simp
  | cons k rest ih =>
    obtain ⟨hk, hrest⟩ := List.nodup_cons.mp hnd
    rw [List.countP_cons]
    by_cases hkh : k = h
    · subst hkh
      have h0 : rest.countP (fun x => x = k) = 0 := by
        rw [List.countP_eq_zero]
        intro a ha
        simp only [decide_eq_true_eq]
        intro hak
        exact hk (hak ▸ ha)
      simp [h0]
    · have : ¬ (h = k) := fun he => hkh he.symm
      simp [hkh, this, ih hrest]

/-- One aggregation step raises a heading's frequency count by one exactly
when the parsed document contains that heading. -/
theorem analyzeStep_freq (d : AnalyticsData) (f : HFile) (h : String) :
    lookupCount (analyzeStep d f).sections_frequency h =
      lookupCount d.sections_frequency h +
        (if (alookup h (parse_handoff f).sections).isSome then 1 else 0) := by
  show lookupCount ((keys (parse_handoff f).sections).foldl (fun c k => dictBump k c)
      d.sections_frequency) h = _
  rw [lookupCount_foldl_bump]
  have hs : (parse_handoff f).sections = parse_sections f.content := rfl
  rw [hs, countP_key_nodup _ h (parse_keys_nodup f.content)]
  congr 1
  by_cases hm : h ∈ keys (parse_sections f.content)
  · rw [if_pos hm, if_pos ((alookup_isSome_iff_mem h _).mpr hm)]
  · rw [if_neg hm, if_neg (fun hsm => hm ((alookup_isSome_iff_mem h _).mp hsm))]

theorem foldl_freq (files : List HFile) :
    ∀ (d : AnalyticsData) (h : String),
      lookupCount (files.foldl analyzeStep d).sections_frequency h =
        lookupCount d.sections_frequency h +
          files.countP (fun f => (alookup h (parse_handoff f).sections).isSome) := by
  induction files with
  | nil => intro d h; simp
  | cons f rest ih =>
    intro d h
    rw [List.foldl_cons, ih, analyzeStep_freq, List.countP_cons]
    by_cases hf : (alookup h (parse_handoff f).sections).isSome = true <;>
      simp [hf] <;> omega

theorem analyze_freq_eq (files : List HFile) :
    (analyze_handoffs files).sections_frequency =
      (files.foldl analyzeStep (analyzeInit files)).sections_frequency := by
  unfold analyze_handoffs
  by_cases hf : files.isEmpty
  · rw [if_pos hf, List.isEmpty_iff.mp hf]
    rfl
  · rw [if_neg hf]
    by_cases ht : (files.map (fun f => (parse_handoff f).modified)).isEmpty
    · rw [if_pos ht]
    · rw [if_neg ht]

theorem foldl_total (files : List HFile) :
    ∀ (d : AnalyticsData), (files.foldl analyzeStep d).total_handoffs = d.total_handoffs := by
  induction files with
  | nil => intro d; rfl
  | cons f rest ih =>
    intro d
    rw [List.foldl_cons, ih]
    rfl

theorem analyze_total_eq (files : List HFile) :
    (analyze_handoffs files).total_handoffs = files.length := by
  unfold analyze_handoffs
  by_cases hf : files.isEmpty
  · rw [if_pos hf]; rfl
  · rw [if_neg hf]
    by_cases ht : (files.map (fun f => (parse_handoff f).modified)).isEmpty
    · rw [if_pos ht]
      exact foldl_total files _
    · rw [if_neg ht]
      exact foldl_total files _

/-- C5: each heading's aggregated frequency equals the number of documents
whose sections mapping contains it, hence never exceeds the document
count. -/
theorem sections_frequency_counts_documents (files : List HFile) (h : String) :
    lookupCount (analyze_handoffs files).sections_frequency h =
      (files.filter (fun f => (alookup h (parse_handoff f).sections).isSome)).length ∧
    lookupCount (analyze_handoffs files).sections_frequency h ≤
      (analyze_handoffs files).total_handoffs := by
  have heq : lookupCount (analyze_handoffs files).sections_frequency h =
      (files.filter (fun f => (alookup h (parse_handoff f).sections).isSome)).length := by
    rw [analyze_freq_eq, foldl_freq, ← List.countP_eq_length_filter]
    simp [analyzeInit, lookupCount, alookup]
  refine ⟨heq, ?_⟩
  rw [heq, analyze_total_eq]
  exact List.length_filter_le _ files

/-- The three counted labels of one section's trend record, summed. -/
def trendTotal (tr : List (String × ConfCounts)) (h : String) : Nat :=
  match alookup h tr with
  | some t => t.high + t.medium + t.low
  | none => 0

theorem bumpLevel_total (level : String) (t : ConfCounts)
    (hl : level = "high" ∨ level = "medium" ∨ level = "low") :
    (bumpLevel level t).high + (bumpLevel level t).medium + (bumpLevel level t).low =
      t.high + t.medium + t.low + 1 := by
  rcases hl with hl | hl | hl <;> subst hl <;> simp [bumpLevel] <;> omega

theorem trendTotal_bump (k level h : String) (tr : List (String × ConfCounts))
    (hl : level = "high" ∨ level = "medium" ∨ level = "low") :
    trendTotal (trendsBump k level tr) h =
      trendTotal tr h + (if k = h then 1 else 0) := by
  induction tr with
  | nil =>
    by_cases hk : k = h
    · subst hk
      simp [trendsBump, trendTotal, alookup, bumpLevel_total level _ hl]
    · simp [trendsBump, trendTotal, alookup, hk]
  | cons p rest ih =>
    obtain ⟨k', t⟩ := p
    by_cases hk : k' = k
    · subst hk
      by_cases hh : k' = h
      · subst hh
        simp [trendsBump, trendTotal, alookup, bumpLevel_total level _ hl]
      · simp [trendsBump, trendTotal, alookup, hh]
    · by_cases hh : k' = h
      · subst hh
        have hkk : ¬ (k = k') := fun he => hk he.symm
        simp [trendsBump, trendTotal, alookup, hk, hkk]
      · simp [trendsBump, trendTotal, alookup, hk, hh] at ih ⊢
        exact ih

theorem trendTotal_foldl_confs (confs : List (String × String)) :
    ∀ (tr : List (String × ConfCounts)) (h : String),
      trendTotal (confs.foldl
        (fun tr p =>
          if p.2 = "high" || p.2 = "medium" || p.2 = "low" then
            trendsBump p.1 p.2 tr
          else tr) tr) h ≤
        trendTotal tr h + confs.countP (fun p => p.1 = h) := by
  induction confs with
  | nil => intro tr h; simp
  | cons p rest ih =>
    intro tr h
    rw [List.foldl_cons]
    by_cases hg : (p.2 = "high" || p.2 = "medium" || p.2 = "low") = true
    · rw [if_pos hg]
      have hg' := hg
      simp only [Bool.or_eq_true, decide_eq_true_eq] at hg'
      have hl : p.2 = "high" ∨ p.2 = "medium" ∨ p.2 = "low" := by tauto
      refine le_trans (ih _ h) ?_
      rw [trendTotal_bump p.1 p.2 h tr hl, List.countP_cons]
      by_cases hph : p.1 = h
      · rw [if_pos hph, if_pos (show decide (p.1 = h) = true by simp [hph])]
        omega
      · rw [if_neg hph, if_neg (show ¬ (decide (p.1 = h) = true) by simp [hph])]
        omega
    · rw [if_neg hg]
      refine le_trans (ih tr h) ?_
      rw [List.countP_cons]
      omega

/-- One aggregation step raises a heading's three-label trend total by at
most one, and only when the document contains the heading. -/
theorem analyzeStep_trend (d : AnalyticsData) (f : HFile) (h : String) :
    trendTotal (analyzeStep d f).confidence_trends h ≤
      trendTotal d.confidence_trends h +
        (if (alookup h (parse_handoff f).sections).isSome then 1 else 0) := by
  have hstep : (analyzeStep d f).confidence_trends =
      (extract_confidence_levels (parse_handoff f).sections).foldl
        (fun tr p =>
          if p.2 = "high" || p.2 = "medium" || p.2 = "low" then
            trendsBump p.1 p.2 tr
          else tr) d.confidence_trends := rfl
  rw [hstep]
  refine le_trans (trendTotal_foldl_confs _ d.confidence_trends h) ?_
  have hcount : (extract_confidence_levels (parse_handoff f).sections).countP
      (fun p => p.1 = h) =
      ((parse_handoff f).sections).countP (fun q => q.1 = h) := by
    unfold extract_confidence_levels
    rw [List.countP_map]
    rfl
  rw [hcount]
  have hkeys : ((parse_handoff f).sections).countP (fun q => q.1 = h) =
      (keys (parse_sections f.content)).countP (fun k => k = h) := by
    show ((parse_sections f.content)).countP (fun q => q.1 = h) = _
    unfold keys
    rw [List.countP_map]
    rfl
  rw [hkeys, countP_key_nodup _ h (parse_keys_nodup f.content)]
  have hs : (parse_handoff f).sections = parse_sections f.content := rfl
  rw [hs]
  by_cases hm : h ∈ keys (parse_sections f.content)
  · rw [if_pos hm, if_pos ((alookup_isSome_iff_mem h _).mpr hm)]
  · rw [if_neg hm, if_neg (fun hsm => hm ((alookup_isSome_iff_mem h _).mp hsm))]

theorem foldl_trend_le_freq (files : List HFile) :
    ∀ (d : AnalyticsData) (h : String),
      trendTotal d.confidence_trends h ≤ lookupCount d.sections_frequency h →
      trendTotal (files.foldl analyzeStep d).confidence_trends h ≤
        lookupCount (files.foldl analyzeStep d).sections_frequency h := by
  induction files with
  | nil => intro d h hd; exact hd
  | cons f rest ih =>
    intro d h hd
    rw [List.foldl_cons]
    refine ih (analyzeStep d f) h ?_
    calc trendTotal (analyzeStep d f).confidence_trends h
        ≤ trendTotal d.confidence_trends h +
            (if (alookup h (parse_handoff f).sections).isSome then 1 else 0) :=
          analyzeStep_trend d f h
      _ ≤ lookupCount d.sections_frequency h +
            (if (alookup h (parse_handoff f).sections).isSome then 1 else 0) := by
          omega
      _ = lookupCount (analyzeStep d f).sections_frequency h :=
          (analyzeStep_freq d f h).symm

theorem analyze_trends_eq (files : List HFile) :
    (analyze_handoffs files).confidence_trends =
      (files.foldl analyzeStep (analyzeInit files)).confidence_trends := by
  unfold analyze_handoffs
  by_cases hf : files.isEmpty
  · rw [if_pos hf, List.isEmpty_iff.mp hf]
    rfl
  · rw [if_neg hf]
    by_cases ht : (files.map (fun f => (parse_handoff f).modified)).isEmpty
    · rw [if_pos ht]
    · rw [if_neg ht]

/-- C6: for every heading, the counted high, medium and low labels sum to
at most the heading's section frequency: each document contributes one
label per section it contains and unknown labels are not aggregated. -/
theorem confidence_trends_bounded_by_frequency (files : List HFile) (h : String) :
    trendTotal (analyze_handoffs files).confidence_trends h ≤
      lookupCount (analyze_handoffs files).sections_frequency h := by
  rw [analyze_trends_eq, analyze_freq_eq]
  refine foldl_trend_le_freq files (analyzeInit files) h ?_
  simp [analyzeInit, trendTotal, lookupCount, alookup]

/-! ## Time span (C7) -/

/-- The calendar day an instant falls on, at second granularity under a
fixed-offset clock (datetime.fromtimestamp applies a fixed local offset,
which cancels in day comparisons, so it is taken as zero). -/
def calendarDay (t : Int) : Int := Int.fdiv t 86400

theorem foldl_min_le (xs : List Int) :
    ∀ (x y : Int), y ∈ x :: xs → xs.foldl min x ≤ y := by
  induction xs with
  | nil =>
    intro x y hy
    rw [List.mem_singleton.mp hy]
    exact le_refl x
  | cons z zs ih =>
    intro x y hy
    rw [List.foldl_cons]
    rcases List.mem_cons.mp hy with hyx | hy2
    · rw [hyx]
      exact le_trans (ih (min x z) _ (List.mem_cons_self _ _)) (min_le_left x z)
    · rcases List.mem_cons.mp hy2 with hyz | hyzs
      · rw [hyz]
        exact le_trans (ih (min x z) _ (List.mem_cons_self _ _)) (min_le_right x z)
      · exact ih (min x z) y (List.mem_cons_of_mem _ hyzs)

theorem foldl_min_mem (xs : List Int) : ∀ (x : Int), xs.foldl min x ∈ x :: xs := by
  induction xs with
  | nil => intro x; exact List.mem_singleton.mpr rfl
  | cons y ys ih =>
    intro x
    rw [List.foldl_cons]
    rcases List.mem_cons.mp (ih (min x y)) with hh | hh
    · rcases min_choice x y with hm | hm
      · rw [hh, hm]
        exact List.mem_cons_self _ _
      · rw [hh, hm]
        exact List.mem_cons_of_mem _ (List.mem_cons_self _ _)
    · exact List.mem_cons_of_mem _ (List.mem_cons_of_mem _ hh)

theorem foldl_max_ge (xs : List Int) :
    ∀ (x y : Int), y ∈ x :: xs → y ≤ xs.foldl max x := by
  induction xs with
  | nil =>
    intro x y hy
    rw [List.mem_singleton.mp hy]
    exact le_refl x
  | cons z zs ih =>
    intro x y hy
    rw [List.foldl_cons]
    rcases List.mem_cons.mp hy with hyx | hy2
    · rw [hyx]
      exact le_trans (le_max_left x z) (ih (max x z) _ (List.mem_cons_self _ _))
    · rcases List.mem_cons.mp hy2 with hyz | hyzs
      · rw [hyz]
        exact le_trans (le_max_right x z) (ih (max x z) _ (List.mem_cons_self _ _))
      · exact ih (max x z) y (List.mem_cons_of_mem _ hyzs)

theorem foldl_max_mem (xs : List Int) : ∀ (x : Int), xs.foldl max x ∈ x :: xs := by
  induction xs with
  | nil => intro x; exact List.mem_singleton.mpr rfl
  | cons y ys ih =>
    intro x
    rw [List.foldl_cons]
    rcases List.mem_cons.mp (ih (max x y)) with hh | hh
    · rcases max_choice x y with hm | hm
      · rw [hh, hm]
        exact List.mem_cons_self _ _
      · rw [hh, hm]
        exact List.mem_cons_of_mem _ (List.mem_cons_self _ _)
    · exact List.mem_cons_of_mem _ (List.mem_cons_of_mem _ hh)

theorem pyMin_mem (x : Int) (xs : List Int) : pyMin (x :: xs) ∈ x :: xs :=
  foldl_min_mem xs x

theorem pyMin_le (x : Int) (xs : List Int) : ∀ y ∈ x :: xs, pyMin (x :: xs) ≤ y :=
  fun y hy => foldl_min_le xs x y hy

theorem pyMax_mem (x : Int) (xs : List Int) : pyMax (x :: xs) ∈ x :: xs :=
  foldl_max_mem xs x

theorem pyMax_ge (x : Int) (xs : List Int) : ∀ y ∈ x :: xs, y ≤ pyMax (x :: xs) :=
  fun y hy => foldl_max_ge xs x y hy

/-- Instants on one calendar day are less than a day apart. -/
theorem same_day_sub_lt (a b : Int) (hd : calendarDay a = calendarDay b)
    (hab : a ≤ b) : b - a < 86400 ∧ 0 ≤ b - a := by
  have h86 : (0 : Int) ≤ 86400 := by norm_num
  unfold calendarDay at hd
  rw [Int.fdiv_eq_ediv a h86, Int.fdiv_eq_ediv b h86] at hd
  have ha := Int.ediv_add_emod a 86400
  have hb := Int.ediv_add_emod b 86400
  have har : 0 ≤ a % 86400 := Int.emod_nonneg a (by norm_num)
  have hbr : b % 86400 < 86400 := Int.emod_lt_of_pos b (by norm_num)
  constructor
  · omega
  · omega

theorem analyze_time_span_empty (files : List HFile) (hf : files = []) :
    (analyze_handoffs files).time_span = none := by
  subst hf
  rfl

theorem analyze_time_span_nonempty (files : List HFile) (hf : ¬ files.isEmpty = true) :
    (analyze_handoffs files).time_span = some
      { start := pyMin (files.map (fun f => (parse_handoff f).modified))
        stop := pyMax (files.map (fun f => (parse_handoff f).modified))
        duration_days :=
          Int.fdiv (pyMax (files.map (fun f => (parse_handoff f).modified)) -
            pyMin (files.map (fun f => (parse_handoff f).modified))) 86400 } := by
  unfold analyze_handoffs
  rw [if_neg hf]
  have ht : ¬ ((files.map (fun f => (parse_handoff f).modified)).isEmpty = true) := by
    intro hem
    exact hf (by
      rw [List.isEmpty_iff] at hem ⊢
      exact List.map_eq_nil_iff.mp hem)
  rw [if_neg ht]

/-- C7: the snapshot's time span is absent exactly when there are no
documents; when present, it runs from the least to the greatest
modification time, its day count is the floored whole-day difference,
never negative, and zero whenever every document falls on one calendar
day. -/
theorem time_span_characterization (files : List HFile) :
    ((analyze_handoffs files).time_span = none ↔
      (analyze_handoffs files).total_handoffs = 0) ∧
    (∀ span, (analyze_handoffs files).time_span = some span →
      span.start = pyMin (files.map (fun f => (parse_handoff f).modified)) ∧
      span.stop = pyMax (files.map (fun f => (parse_handoff f).modified)) ∧
      span.duration_days = Int.fdiv (span.stop - span.start) 86400 ∧
      0 ≤ span.duration_days ∧
      ((∀ f ∈ files, ∀ g ∈ files, calendarDay f.mtime = calendarDay g.mtime) →
        span.duration_days = 0)) := by
  have h86 : (0 : Int) ≤ 86400 := by norm_num
  cases files with
  | nil =>
    constructor
    · constructor
      · intro _
        rfl
      · intro _
        rfl
    · intro span hspan
      rw [analyze_time_span_empty [] rfl] at hspan
      cases hspan
  | cons f0 fs =>
    have hne : ¬ ((f0 :: fs).isEmpty = true) := by simp
    have hts := analyze_time_span_nonempty (f0 :: fs) hne
    constructor
    · rw [hts, analyze_total_eq]
      simp
    · intro span hspan
      rw [hts] at hspan
      have hsp := (Option.some.inj hspan).symm
      subst hsp
      have hcons : (f0 :: fs).map (fun f => (parse_handoff f).modified) =
          f0.mtime :: fs.map (fun f => f.mtime) := rfl
      have hminmem : pyMin ((f0 :: fs).map (fun f => (parse_handoff f).modified)) ∈
          f0.mtime :: fs.map (fun f => f.mtime) := by
        rw [hcons]
        exact pyMin_mem _ _
      have hmaxmem : pyMax ((f0 :: fs).map (fun f => (parse_handoff f).modified)) ∈
          f0.mtime :: fs.map (fun f => f.mtime) := by
        rw [hcons]
        exact pyMax_mem _ _
      have hle : pyMin ((f0 :: fs).map (fun f => (parse_handoff f).modified)) ≤
          pyMax ((f0 :: fs).map (fun f => (parse_handoff f).modified)) := by
        rw [hcons] at hmaxmem ⊢
        exact pyMin_le _ _ _ hmaxmem
      have hsub : (0 : Int) ≤
          pyMax ((f0 :: fs).map (fun f => (parse_handoff f).modified)) -
            pyMin ((f0 :: fs).map (fun f => (parse_handoff f).modified)) := by
        omega
      refine ⟨rfl, rfl, rfl, ?_, ?_⟩
      · show 0 ≤ Int.fdiv _ 86400
        rw [Int.fdiv_eq_ediv _ h86]
        exact Int.ediv_nonneg hsub h86
      · intro hsame
        show Int.fdiv _ 86400 = 0
        have hmap : f0.mtime :: fs.map (fun f => f.mtime) =
            (f0 :: fs).map (fun f => f.mtime) := rfl
        rw [hmap] at hminmem hmaxmem
        obtain ⟨gmin, hgmin_mem, hgmin_eq⟩ := List.mem_map.mp hminmem
        obtain ⟨gmax, hgmax_mem, hgmax_eq⟩ := List.mem_map.mp hmaxmem
        have hd : calendarDay (pyMin ((f0 :: fs).map (fun f => (parse_handoff f).modified))) =
            calendarDay (pyMax ((f0 :: fs).map (fun f => (parse_handoff f).modified))) := by
          rw [← hgmin_eq, ← hgmax_eq]
          exact hsame gmin hgmin_mem gmax hgmax_mem
        obtain ⟨hlt, hge⟩ := same_day_sub_lt _ _ hd hle
        rw [Int.fdiv_eq_ediv _ h86]
        exact Int.ediv_eq_zero_of_lt hge hlt

/-- Witness for C7: a concrete two-document corpus whose files fall on the
same calendar day has a present time span with a nonnegative duration of
zero days. -/
theorem time_span_characterization_witness :
    0 ≤ (⟨100, 50000, 0⟩ : TimeSpan).duration_days ∧
    (⟨100, 50000, 0⟩ : TimeSpan).duration_days = 0 := by
  have h := (time_span_characterization
      [⟨"a.md", "", 100⟩, ⟨"b.md", "", 50000⟩]).2 ⟨100, 50000, 0⟩ (by decide)
  exact ⟨h.2.2.2.1, h.2.2.2.2 (by decide)⟩

/-! ## Summary rate guard (C8) and exit codes (C4) -/

theorem printSummaryRate_of_some (d : AnalyticsData) (span : TimeSpan)
    (hts : d.time_span = some span) :
    printSummaryRate d =
      if span.duration_days > 0 then
        some ((d.total_handoffs : Int), span.duration_days)
      else none := by
  unfold printSummaryRate
  rw [hts]

theorem printSummaryRate_of_none (d : AnalyticsData) (hts : d.time_span = none) :
    printSummaryRate d = none := by
  unfold printSummaryRate
  rw [hts]

/-- C8: the summary's documents-per-day division is performed only when
the duration is strictly positive; with a zero duration, or with no
documents at all, the rate is omitted, so the divisor is never zero. -/
theorem summary_rate_guarded (files : List HFile) :
    (∀ r, printSummaryRate (analyze_handoffs files) = some r → 0 < r.2) ∧
    (∀ span, (analyze_handoffs files).time_span = some span →
      span.duration_days = 0 → printSummaryRate (analyze_handoffs files) = none) ∧
    (files = [] → printSummaryRate (analyze_handoffs files) = none) := by
  refine ⟨?_, ?_, ?_⟩
  · intro r hr
    cases hts : (analyze_handoffs files).time_span with
    | none =>
      rw [printSummaryRate_of_none _ hts] at hr
      cases hr
    | some span =>
      rw [printSummaryRate_of_some _ span hts] at hr
      by_cases hd : span.duration_days > 0
      · rw [if_pos hd] at hr
        have hre : r = (((analyze_handoffs files).total_handoffs : Int),
            span.duration_days) := (Option.some.inj hr).symm
        rw [hre]
        exact hd
      · rw [if_neg hd] at hr
        cases hr
  · intro span hts hd0
    rw [printSummaryRate_of_some _ span hts, if_neg (by omega)]
  · intro hf
    exact printSummaryRate_of_none _ (analyze_time_span_empty files hf)

/-- Witness for C8: a two-day corpus gets a rate with a positive divisor,
and the empty corpus gets none. -/
theorem summary_rate_guarded_witness :
    (0 : Int) < (((2 : Nat) : Int), (2 : Int)).2 ∧
    printSummaryRate (analyze_handoffs []) = none :=
  ⟨(summary_rate_guarded [⟨"a.md", "", 0⟩, ⟨"b.md", "", 172800⟩]).1
      (((2 : Nat) : Int), (2 : Int)) (by decide),
   (summary_rate_guarded []).2.2 rfl⟩

theorem foldl_handoffs_len (files : List HFile) :
    ∀ (d : AnalyticsData),
      (files.foldl analyzeStep d).handoffs.length = d.handoffs.length + files.length := by
  induction files with
  | nil => intro d; simp
  | cons f rest ih =>
    intro d
    rw [List.foldl_cons, ih]
    have hstep : (analyzeStep d f).handoffs.length = d.handoffs.length + 1 := by
      show (d.handoffs ++ [parse_handoff f]).length = d.handoffs.length + 1
      simp
    rw [hstep]
    simp
    omega

theorem analyze_handoffs_list_eq (files : List HFile) :
    (analyze_handoffs files).handoffs =
      (files.foldl analyzeStep (analyzeInit files)).handoffs := by
  unfold analyze_handoffs
  by_cases hf : files.isEmpty
  · rw [if_pos hf, List.isEmpty_iff.mp hf]
    rfl
  · rw [if_neg hf]
    by_cases ht : (files.map (fun f => (parse_handoff f).modified)).isEmpty
    · rw [if_pos ht]
    · rw [if_neg ht]

theorem analyze_handoffs_not_empty (files : List HFile)
    (hf : ¬ files.isEmpty = true) :
    ¬ (analyze_handoffs files).handoffs.isEmpty = true := by
  intro he
  rw [List.isEmpty_iff] at he
  have hlen : (analyze_handoffs files).handoffs.length = files.length := by
    rw [analyze_handoffs_list_eq, foldl_handoffs_len]
    simp [analyzeInit]
  rw [he] at hlen
  have : files = [] := List.length_eq_zero.mp hlen.symm
  exact hf (by rw [this]; rfl)

/-- Counterexample for C4 as stated: a one-document corpus with no issues
runs the issues command with nothing to show (print_issues prints
No issues found), yet the exit code is 0, not 1: print_issues returns 0
on its empty path. -/
theorem issues_command_exit_code_cex :
    (analyze_handoffs [⟨"AI_Continuation_Document-01Jan2025-0000.md", "", 0⟩]).issues = [] ∧
    (mainRun [⟨"AI_Continuation_Document-01Jan2025-0000.md", "", 0⟩] none
      (some Command.issues)).exitCode = 0 ∧
    ¬ ((mainRun [⟨"AI_Continuation_Document-01Jan2025-0000.md", "", 0⟩] none
      (some Command.issues)).exitCode = 1) := by
  refine ⟨by decide, by decide, by decide⟩

/-- C4 (amended): a console command exits 1 exactly when no documents were
found, or when the confidence command has no confidence data; the issues
command (and the summary and timeline commands) return 0 whenever
documents exist, even with no issues to show; and with zero documents
every invocation exits 1, emits the no-documents message and writes no
export file. -/
theorem main_exit_codes (files : List HFile) (cmd : Command)
    (hc : cmd ≠ Command.report) :
    ((mainRun files none (some cmd)).exitCode = 0 ∨
      (mainRun files none (some cmd)).exitCode = 1) ∧
    ((mainRun files none (some cmd)).exitCode = 1 ↔
      files = [] ∨ (cmd = Command.confidence ∧
        (analyze_handoffs files).confidence_trends = [])) ∧
    (files = [] → ∀ (ef : Option ExportFmt) (c : Option Command),
      (mainRun files ef c).exitCode = 1 ∧
      (mainRun files ef c).printedNoDocs = true ∧
      (mainRun files ef c).exportWritten = false) := by
  by_cases hf : files.isEmpty = true
  · have hfl : files = [] := List.isEmpty_iff.mp hf
    have hm : ∀ (ef : Option ExportFmt) (c : Option Command),
        mainRun files ef c = ⟨1, true, false⟩ := by
      intro ef c
      unfold mainRun
      rw [if_pos hf]
    refine ⟨?_, ?_, ?_⟩
    · rw [hm]
      right
      rfl
    · rw [hm]
      constructor
      · intro _
        exact Or.inl hfl
      · intro _
        rfl
    · intro _ ef c
      rw [hm]
      exact ⟨rfl, rfl, rfl⟩
  · have hfl : ¬ files = [] := fun he => hf (by rw [he]; rfl)
    cases cmd with
    | report => exact absurd rfl hc
    | summary =>
      have hm : mainRun files none (some Command.summary) = ⟨0, false, false⟩ := by
        unfold mainRun
        rw [if_neg hf]
        rfl
      refine ⟨?_, ?_, fun he => absurd he hfl⟩
      · rw [hm]
        left
        rfl
      · rw [hm]
        constructor
        · intro h01
          exact absurd h01 (by decide)
        · rintro (he | ⟨hcc, _⟩)
          · exact absurd he hfl
          · exact Command.noConfusion hcc
    | timeline =>
      have hne := analyze_handoffs_not_empty files hf
      have hexit : (mainRun files none (some Command.timeline)).exitCode =
          print_timeline_ret (analyze_handoffs files) := by
        unfold mainRun
        rw [if_neg hf]
      have hret : print_timeline_ret (analyze_handoffs files) = 0 := by
        unfold print_timeline_ret
        rw [if_neg hne]
      refine ⟨?_, ?_, fun he => absurd he hfl⟩
      · rw [hexit, hret]
        left
        rfl
      · rw [hexit, hret]
        constructor
        · intro h01
          exact absurd h01 (by decide)
        · rintro (he | ⟨hcc, _⟩)
          · exact absurd he hfl
          · exact Command.noConfusion hcc
    | confidence =>
      have hexit : (mainRun files none (some Command.confidence)).exitCode =
          print_confidence_ret (analyze_handoffs files) := by
        unfold mainRun
        rw [if_neg hf]
      refine ⟨?_, ?_, fun he => absurd he hfl⟩
      · rw [hexit]
        unfold print_confidence_ret
        by_cases he : (analyze_handoffs files).confidence_trends.isEmpty = true
        · rw [if_pos he]
          right
          rfl
        · rw [if_neg he]
          left
          rfl
      · rw [hexit]
        unfold print_confidence_ret
        constructor
        · intro h1
          by_cases he : (analyze_handoffs files).confidence_trends.isEmpty = true
          · exact Or.inr ⟨rfl, List.isEmpty_iff.mp he⟩
          · rw [if_neg he] at h1
            exact absurd h1 (by decide)
        · rintro (he | ⟨_, htr⟩)
          · exact absurd he hfl
          · rw [if_pos (by rw [List.isEmpty_iff]; exact htr)]
    | issues =>
      have hm : mainRun files none (some Command.issues) = ⟨0, false, false⟩ := by
        unfold mainRun
        rw [if_neg hf]
        rfl
      refine ⟨?_, ?_, fun he => absurd he hfl⟩
      · rw [hm]
        left
        rfl
      · rw [hm]
        constructor
        · intro h01
          exact absurd h01 (by decide)
        · rintro (he | ⟨hcc, _⟩)
          · exact absurd he hfl
          · exact Command.noConfusion hcc

/-- Witness for C4 (amended): with no documents, the summary invocation
exits 1, prints the no-documents message and writes nothing. -/
theorem main_exit_codes_witness :
    (mainRun [] none (some Command.summary)).exitCode = 1 ∧
    (mainRun [] none (some Command.summary)).printedNoDocs = true ∧
    (mainRun [] none (some Command.summary)).exportWritten = false :=
  (main_exit_codes [] Command.summary (by decide)).2.2 rfl none (some Command.summary)

/-! ## Scenario checks from the testable properties -/

theorem scenario_two_risks :
    extract_issues [("What Could Go Wrong", "- Data may be stale\n- Disk could fill up")] =
      [("risk", "Data may be stale"), ("risk", "Disk could fill up")] := by decide

theorem scenario_one_bug_bulleted_only :
    extract_issues [("Current System State",
        "- API endpoint returns error intermittently\nan error mentioned without a bullet")] =
      [("bug", "API endpoint returns error intermittently")] := by decide

theorem scenario_last_write_wins :
    parse_sections "## A\nfirst\n## A\nsecond" = [("A", "second")] := by decide
